import Mathlib

/-!
# csv-translator: the translation cache and the row pipeline of `main.go`

A shallow embedding of `Translator.TranslateCell`, `NewTranslator`, `ProcessCSV`
and of the argument handling of `main`, followed by the properties of the
specification that are settled against it.

Modelling conventions.

* Go `string` values are Lean `String`s.  The only byte-level operations used by
  the program (`strings.Split` on `","`, `strings.TrimSuffix` with `".csv"`)
  look for ASCII bytes, which agree with character-level operations on UTF-8 text.
* `map[string]string` is an association list read with `Cache.get`; assignment
  puts the new binding in front, so it shadows any older one (Go overwrite).
  `map[string]struct{}` is the list of its keys.
* The translation service, the log, the file system and the CSV lexer are the
  outside world.  The service is a function of the requests made so far and of
  the text sent, so it may answer the same text differently at different times;
  every request is recorded in `World.requests`, every `log.Printf` in `World.log`.
-/

namespace CsvTranslator

/-! ## Maps -/

/-- Go `map[string]string`. -/
abbrev Cache := List (String × String)

/-- The two-valued map read `v, ok := m[k]`: `some v` when `ok`, `none` otherwise. -/
def Cache.get : Cache → String → Option String
  | [], _ => none
  | (k, v) :: rest, key => if key = k then some v else Cache.get rest key

/-- The map assignment `m[k] = v`. -/
def Cache.set (m : Cache) (k v : String) : Cache := (k, v) :: m

/-! ## The translator and the outside world -/

/-- The fields of `Translator` that `TranslateCell` reads or writes.  The client,
project id, location and context only parametrise the request sent to the service. -/
structure Translator where
  cache : Cache
  excludeCols : List String
deriving DecidableEq

/-- Observable effects outside the program's own memory. -/
structure World where
  /-- Texts sent to the service by `client.TranslateText`, oldest first. -/
  requests : List String
  /-- Lines emitted through `log.Printf`, oldest first. -/
  log : List String
deriving DecidableEq

/-- The translation service: given the requests already made and the text of the
request, either an error or the list of translated texts of the response. -/
abbrev Backend := List String → String → Except String (List String)

/-- What one call of `TranslateCell` returns and leaves behind. -/
structure CellResult where
  out : String
  t : Translator
  w : World
deriving DecidableEq

/-- The line `log.Printf("Translation error for column %s: %v", header, err)`. -/
def translationErrorLog (header err : String) : String :=
  "Translation error for column " ++ header ++ ": " ++ err

/-- `func (t *Translator) TranslateCell(text string, header string) string`. -/
def TranslateCell (backend : Backend) (t : Translator) (w : World)
    (text header : String) : CellResult :=
  if text = "" then
    ⟨text, t, w⟩
  else if header ∈ t.excludeCols then
    ⟨text, t, w⟩
  else
    match t.cache.get text with
    | some cached => ⟨cached, t, w⟩
    | none =>
      match backend w.requests text with
      | .error err =>
        ⟨text, t, { requests := w.requests ++ [text],
                    log := w.log ++ [translationErrorLog header err] }⟩
      | .ok (translated :: _) =>
        ⟨translated, { t with cache := t.cache.set text translated },
          { w with requests := w.requests ++ [text] }⟩
      | .ok [] =>
        ⟨text, t, { w with requests := w.requests ++ [text] }⟩

/-- The loop of `NewTranslator` that fills `excludeMap`: each name of `exclude`
is made a key of the map. -/
def newExcludeMap (exclude : List String) : List String :=
  exclude.foldl (fun m col => if col ∈ m then m else col :: m) []

/-- `NewTranslator`; `clientErr` is the error of `translate.NewTranslationClient`,
if any. -/
def NewTranslator (clientErr : Option String) (exclude : List String) :
    Except String Translator :=
  match clientErr with
  | some err => .error err
  | none => .ok { cache := [], excludeCols := newExcludeMap exclude }

/-! ## Strings -/

/-- `strings.HasSuffix(s, suffix)`. -/
def HasSuffix (s suffix : String) : Bool :=
  decide (suffix.data <:+ s.data)

/-- `strings.TrimSuffix(s, suffix)`: `s[:len(s)-len(suffix)]` when `s` ends with
`suffix`, and `s` itself otherwise. -/
def TrimSuffix (s suffix : String) : String :=
  if HasSuffix s suffix then ⟨s.data.take (s.data.length - suffix.data.length)⟩ else s

/-- The pieces of a character sequence between occurrences of `sep`; there is
always at least one piece. -/
def splitChars (sep : Char) : List Char → List (List Char)
  | [] => [[]]
  | c :: cs =>
    if c = sep then [] :: splitChars sep cs
    else
      match splitChars sep cs with
      | [] => [[c]]
      | piece :: pieces => (c :: piece) :: pieces

/-- `strings.Split(s, sep)` for a one-character separator. -/
def Split (s : String) (sep : Char) : List String :=
  (splitChars sep s.data).map String.mk

/-- The expression `strings.TrimSuffix(inputPath, ".csv") + "_translated.csv"` of
`ProcessCSV`. -/
def outPath (inputPath : String) : String :=
  TrimSuffix inputPath ".csv" ++ "_translated.csv"

/-- The exclusion list `main` hands to `NewTranslator`:
`strings.Split(excludeColsArg, ",")`. -/
def mainExcludeCols (excludeColsArg : String) : List String :=
  Split excludeColsArg ','

/-! ## The CSV reader (`encoding/csv`, default settings) -/

/-- One record as the lexer of `csv.Reader` delivers it, before the field-count
check.  A record lexed without error has at least one field (blank lines are
skipped); a lexing error comes with the fields lexed before it. -/
inductive RawRecord where
  | fields (first : String) (rest : List String)
  | malformed (dst : List String) (msg : String)
deriving DecidableEq

/-- The fields of a raw record. -/
def RawRecord.dst : RawRecord → List String
  | .fields first rest => first :: rest
  | .malformed dst _ => dst

/-- The lexing error of a raw record, if any. -/
def RawRecord.err : RawRecord → Option String
  | .fields _ _ => none
  | .malformed _ msg => some msg

/-- The non-nil errors of `(*csv.Reader).Read`. -/
inductive ReadError where
  | eof
  | parse (msg : String)
  | fieldCount
deriving DecidableEq

/-- The end of `readRecord`: with `FieldsPerRecord > 0` a cleanly lexed record of
another length becomes `ErrFieldCount`; with `FieldsPerRecord == 0` the field
is set to the length of this record.  Returns the result of `Read` and the new
value of `FieldsPerRecord`. -/
def checkFieldCount (fieldsPerRecord : Nat) (raw : RawRecord) :
    Except ReadError (List String) × Nat :=
  if 0 < fieldsPerRecord then
    match raw.err with
    | some msg => (.error (.parse msg), fieldsPerRecord)
    | none =>
      if raw.dst.length ≠ fieldsPerRecord then (.error .fieldCount, fieldsPerRecord)
      else (.ok raw.dst, fieldsPerRecord)
  else
    match raw.err with
    | some msg => (.error (.parse msg), raw.dst.length)
    | none => (.ok raw.dst, raw.dst.length)

/-- State of a `csv.Reader`: `FieldsPerRecord` and the records not yet read. -/
structure Reader where
  fieldsPerRecord : Nat
  pending : List RawRecord
deriving DecidableEq

/-- `csv.NewReader(inFile)`: `FieldsPerRecord` starts at 0. -/
def NewReader (input : List RawRecord) : Reader := ⟨0, input⟩

/-- `(*csv.Reader).Read`: `io.EOF` at the end of the input, otherwise the next
record after the field-count check. -/
def Reader.Read (r : Reader) : Except ReadError (List String) × Reader :=
  match r.pending with
  | [] => (.error .eof, r)
  | raw :: rest =>
    ((checkFieldCount r.fieldsPerRecord raw).1,
      ⟨(checkFieldCount r.fieldsPerRecord raw).2, rest⟩)

/-! ## ProcessCSV -/

/-- The files `ProcessCSV` touches. -/
structure FileSystem where
  /-- `os.Open(path)`: its error, or the records the lexer will find in the file. -/
  openInput : String → Except String (List RawRecord)
  /-- The error of `os.Create(path)`, if any. -/
  create : String → Option String
  /-- The error of the `k`-th call of `csv.Writer.Write`, if any; the header is
  call 0 and data row `n` is call `n`. -/
  writeErr : Nat → Option String

/-- The errors `ProcessCSV` returns, one constructor per `fmt.Errorf`. -/
inductive ProcError where
  | openInput (err : String)
  | readHeader (err : ReadError)
  | createOutput (err : String)
  | writeHeader (err : String)
  | readRow (rowNum : Nat) (err : ReadError)
  | writeRow (rowNum : Nat) (err : String)
deriving DecidableEq

/-- How a run of `ProcessCSV` ends: `return nil`, `return err`, or the run-time
panic of an out-of-range `headers[i]`. -/
inductive Outcome where
  | ok
  | failed (err : ProcError)
  | indexOutOfRange
deriving DecidableEq

/-- State after the loop `for i, cell := range rec` of one row. -/
structure RowResult where
  /-- Contents of `rec` when the loop stops. -/
  record : List String
  /-- Whether `headers[i]` was out of range. -/
  panicked : Bool
  t : Translator
  w : World
deriving DecidableEq

/-- The loop `for i, cell := range rec { rec[i] = translator.TranslateCell(cell, headers[i]) }`,
from index `i` on, `cells` being `rec[i:]`. -/
def translateCells (backend : Backend) (headers : List String) :
    Nat → List String → Translator → World → RowResult
  | _, [], t, w => ⟨[], false, t, w⟩
  | i, cell :: cells, t, w =>
    match headers[i]? with
    | none => ⟨cell :: cells, true, t, w⟩
    | some header =>
      let r := TranslateCell backend t w cell header
      let rr := translateCells backend headers (i + 1) cells r.t r.w
      ⟨r.out :: rr.record, rr.panicked, rr.t, rr.w⟩

/-- State after the row loop of `ProcessCSV`. -/
structure LoopResult where
  outcome : Outcome
  /-- Records written by `w.Write(rec)`, oldest first. -/
  written : List (List String)
  /-- Lines printed by `fmt.Printf`, oldest first. -/
  stdout : List String
  t : Translator
  w : World
deriving DecidableEq

/-- The loop `for { rec, err := r.Read(); ... }` of `ProcessCSV`.  Every
iteration reads the first of the pending records, so the loop is a recursion on
them; the empty list is `io.EOF`. -/
def rowLoop (backend : Backend) (writeErr : Nat → Option String) (headers : List String) :
    Nat → List RawRecord → Nat → Translator → World → LoopResult
  | _, [], _, t, w => ⟨.ok, [], [], t, w⟩
  | fieldsPerRecord, raw :: rest, rowNum, t, w =>
    match checkFieldCount fieldsPerRecord raw with
    | (.error err, _) => ⟨.failed (.readRow rowNum err), [], [], t, w⟩
    | (.ok rec, fieldsPerRecord1) =>
      let line := "Processing row " ++ toString rowNum
      let rr := translateCells backend headers 0 rec t w
      if rr.panicked then ⟨.indexOutOfRange, [], [line], rr.t, rr.w⟩
      else
        match writeErr rowNum with
        | some err => ⟨.failed (.writeRow rowNum err), [], [line], rr.t, rr.w⟩
        | none =>
          let res := rowLoop backend writeErr headers fieldsPerRecord1 rest (rowNum + 1) rr.t rr.w
          { res with written := rr.record :: res.written, stdout := line :: res.stdout }

/-- What a run of `ProcessCSV` returns and leaves behind. -/
structure Run where
  outcome : Outcome
  /-- The value of `outPath`, once computed. -/
  outPath : Option String
  /-- Records written to the output file, header included, oldest first. -/
  written : List (List String)
  stdout : List String
  t : Translator
  w : World
deriving DecidableEq

/-- `func ProcessCSV(inputPath string, translator *Translator) error`. -/
def ProcessCSV (backend : Backend) (fs : FileSystem) (inputPath : String)
    (t : Translator) (w : World) : Run :=
  match fs.openInput inputPath with
  | .error err => ⟨.failed (.openInput err), none, [], [], t, w⟩
  | .ok input =>
    match (NewReader input).Read with
    | (.error err, _) => ⟨.failed (.readHeader err), none, [], [], t, w⟩
    | (.ok headers, r) =>
      match fs.create (outPath inputPath) with
      | some err => ⟨.failed (.createOutput err), some (outPath inputPath), [], [], t, w⟩
      | none =>
        match fs.writeErr 0 with
        | some err => ⟨.failed (.writeHeader err), some (outPath inputPath), [], [], t, w⟩
        | none =>
          let res := rowLoop backend fs.writeErr headers r.fieldsPerRecord r.pending 1 t w
          ⟨res.outcome, some (outPath inputPath), headers :: res.written,
            res.stdout ++
              (if res.outcome = .ok then ["Translated CSV written to " ++ outPath inputPath]
               else []),
            res.t, res.w⟩

/-! ## The specification's wording, for comparison with the code -/

/-- The row transformation in the words of the specification:
`outputRow[i] = translate(row[i], header[i])`, the cells taken from left to
right, each against the translator and world left by the cells before it. -/
def specRow (backend : Backend) :
    List String → List String → Translator → World → List String × Translator × World
  | header :: headers, cell :: cells, t, w =>
    let r := TranslateCell backend t w cell header
    let rest := specRow backend headers cells r.t r.w
    (r.out :: rest.1, rest.2)
  | _, _, t, w => ([], t, w)

/-- The pipeline in the words of the specification: the rows in input order,
each transformed by `specRow` against the state left by the rows before it. -/
def specRows (backend : Backend) (headers : List String) :
    List (List String) → Translator → World → List (List String) × Translator × World
  | [], t, w => ([], t, w)
  | row :: rows, t, w =>
    let r := specRow backend headers row t w
    let rest := specRows backend headers rows r.2.1 r.2.2
    (r.1 :: rest.1, rest.2)

/-- The cell in column `i` of row `k` of a table, if there is one. -/
def cellAt (rows : List (List String)) (k i : Nat) : Option String :=
  match rows[k]? with
  | none => none
  | some row => row[i]?

/-- Scan of `filepath.Ext` from the last character backwards: `acc` holds the
characters already passed, the list the reversed rest of the path. -/
def extScan (acc : List Char) : List Char → List Char
  | [] => []
  | c :: cs =>
    if c = '/' then []
    else if c = '.' then '.' :: acc
    else extScan (c :: acc) cs

/-- The file extension of a path as `filepath.Ext` defines it: the suffix that
starts at the last dot of the last path element, empty when there is none. -/
def Ext (path : String) : String :=
  ⟨extScan [] path.data.reverse⟩

/-- The output path in the words of the specification: `path` with `marker`
put right before its file extension. -/
def insertBeforeExt (path marker : String) : String :=
  ⟨path.data.take (path.data.length - (Ext path).data.length)⟩ ++ marker ++ Ext path

/-! ## Concrete services, files and inputs used in the examples -/

/-- A service that answers every text with its upper-case form. -/
def upperBackend : Backend :=
  fun _ text => .ok [⟨text.data.map Char.toUpper⟩]

/-- A service that fails on its first request and upper-cases afterwards. -/
def flakyBackend : Backend :=
  fun history text =>
    if history = [] then .error "unavailable" else .ok [⟨text.data.map Char.toUpper⟩]

/-- A file system in which every path opens to `input` and nothing fails. -/
def fileWith (input : List RawRecord) : FileSystem :=
  ⟨fun _ => .ok input, fun _ => none, fun _ => none⟩

/-- The input `id,city\n1,Paris\n2,Paris\n3,`. -/
def parisInput : List RawRecord :=
  [.fields "id" ["city"], .fields "1" ["Paris"], .fields "2" ["Paris"], .fields "3" [""]]

/-- The input `city\nParis\nParis`. -/
def twoParis : List RawRecord :=
  [.fields "city" [], .fields "Paris" [], .fields "Paris" []]

/-- The input `id,city\n1,Paris\n2,Lyon,extra\n3,Nice`: row 2 has three fields. -/
def raggedInput : List RawRecord :=
  [.fields "id" ["city"], .fields "1" ["Paris"], .fields "2" ["Lyon", "extra"],
    .fields "3" ["Nice"]]

/-! # Properties -/

/-! ## TranslateCell -/

/-- C3: an empty cell is returned as it is, whatever the header, the cache, the
exclusion set and the service; no request is made, nothing is logged and the
translator (its cache in particular) is left as it was. -/
theorem translateCell_empty_text (backend : Backend) (t : Translator) (w : World)
    (header : String) :
    TranslateCell backend t w "" header = ⟨"", t, w⟩ := by
  simp [TranslateCell]

/-- C4: a cell of an excluded column is returned as it is, whatever the cache
holds for its text and whatever the service would answer; no request is made
and the cache is left as it was. -/
theorem translateCell_excluded_column (backend : Backend) (t : Translator) (w : World)
    (text header : String) (hcol : header ∈ t.excludeCols) :
    TranslateCell backend t w text header = ⟨text, t, w⟩ := by
  simp [TranslateCell, hcol]

theorem translateCell_excluded_column_witness :
    "id" ∈ (⟨[("7", "seven")], ["id"]⟩ : Translator).excludeCols ∧
    TranslateCell upperBackend ⟨[("7", "seven")], ["id"]⟩ ⟨[], []⟩ "7" "id" =
      ⟨"7", ⟨[("7", "seven")], ["id"]⟩, ⟨[], []⟩⟩ :=
  ⟨by decide, translateCell_excluded_column upperBackend ⟨[("7", "seven")], ["id"]⟩ ⟨[], []⟩
    "7" "id" (by decide)⟩

/-- C2: for a non-empty text of a non-excluded column that is not cached, a
service error or an answer without translations makes `TranslateCell` return the
text itself and leave the translator, hence the cache, exactly as it was, still
without an entry for the text; the next call for the same text sends a second
request. -/
theorem translateCell_backend_failure (backend : Backend) (t : Translator) (w : World)
    (text header : String) (htext : text ≠ "") (hcol : header ∉ t.excludeCols)
    (hmiss : t.cache.get text = none)
    (hfail : (∃ err, backend w.requests text = .error err) ∨
      backend w.requests text = .ok []) :
    (TranslateCell backend t w text header).out = text ∧
    (TranslateCell backend t w text header).t = t ∧
    (TranslateCell backend t w text header).t.cache.get text = none ∧
    (TranslateCell backend t w text header).w.requests = w.requests ++ [text] ∧
    (TranslateCell backend (TranslateCell backend t w text header).t
      (TranslateCell backend t w text header).w text header).w.requests
        = w.requests ++ [text, text] := by
  have h1 : (TranslateCell backend t w text header).out = text ∧
      (TranslateCell backend t w text header).t = t ∧
      (TranslateCell backend t w text header).w.requests = w.requests ++ [text] := by
    rcases hfail with ⟨err, he⟩ | he <;> simp [TranslateCell, htext, hcol, hmiss, he]
  obtain ⟨ho, ht, hw⟩ := h1
  refine ⟨ho, ht, by rw [ht]; exact hmiss, hw, ?_⟩
  rw [ht]
  generalize (TranslateCell backend t w text header).w = w1 at hw
  unfold TranslateCell
  simp only [htext, hcol, hmiss, if_false]
  cases hb : backend w1.requests text with
  | error err => simp [hw]
  | ok trs =>
    cases trs with
    | nil => simp [hw]
    | cons tr rest => simp [hw]

theorem translateCell_backend_failure_witness :
    (TranslateCell (fun _ _ => .error "unavailable") ⟨[("adios", "bye")], ["id"]⟩ ⟨[], []⟩
        "hola" "greeting").out = "hola" ∧
    (TranslateCell (fun _ _ => .error "unavailable") ⟨[("adios", "bye")], ["id"]⟩ ⟨[], []⟩
        "hola" "greeting").t = ⟨[("adios", "bye")], ["id"]⟩ :=
  have h := translateCell_backend_failure (fun _ _ => .error "unavailable")
    ⟨[("adios", "bye")], ["id"]⟩ ⟨[], []⟩ "hola" "greeting"
    (by decide) (by decide) (by decide) (Or.inl ⟨"unavailable", rfl⟩)
  ⟨h.1, h.2.1⟩

theorem cache_get_set_self (m : Cache) (k v : String) : (m.set k v).get k = some v := by
  simp [Cache.set, Cache.get]

theorem cache_get_set_of_ne (m : Cache) (k v key : String) (h : key ≠ k) :
    (m.set k v).get key = m.get key := by
  simp [Cache.set, Cache.get, h]

/-- The five ways a call of `TranslateCell` can go. -/
theorem translateCell_cases (backend : Backend) (t : Translator) (w : World)
    (text header : String) :
    (TranslateCell backend t w text header = ⟨text, t, w⟩ ∧
      (text = "" ∨ header ∈ t.excludeCols)) ∨
    (∃ cached, text ≠ "" ∧ header ∉ t.excludeCols ∧ t.cache.get text = some cached ∧
      TranslateCell backend t w text header = ⟨cached, t, w⟩) ∨
    (∃ err, text ≠ "" ∧ header ∉ t.excludeCols ∧ t.cache.get text = none ∧
      backend w.requests text = .error err ∧
      TranslateCell backend t w text header =
        ⟨text, t, ⟨w.requests ++ [text], w.log ++ [translationErrorLog header err]⟩⟩) ∨
    (∃ translated rest, text ≠ "" ∧ header ∉ t.excludeCols ∧ t.cache.get text = none ∧
      backend w.requests text = .ok (translated :: rest) ∧
      TranslateCell backend t w text header =
        ⟨translated, ⟨t.cache.set text translated, t.excludeCols⟩,
          ⟨w.requests ++ [text], w.log⟩⟩) ∨
    (text ≠ "" ∧ header ∉ t.excludeCols ∧ t.cache.get text = none ∧
      backend w.requests text = .ok [] ∧
      TranslateCell backend t w text header = ⟨text, t, ⟨w.requests ++ [text], w.log⟩⟩) := by
  by_cases htext : text = ""
  · left; simp [TranslateCell, htext]
  by_cases hcol : header ∈ t.excludeCols
  · left; simp [TranslateCell, hcol]
  right
  cases hget : t.cache.get text with
  | some cached => left; exact ⟨cached, htext, hcol, rfl, by simp [TranslateCell, htext, hcol, hget]⟩
  | none =>
    right
    cases hb : backend w.requests text with
    | error err =>
      left; exact ⟨err, htext, hcol, rfl, rfl, by simp [TranslateCell, htext, hcol, hget, hb]⟩
    | ok trs =>
      right
      cases trs with
      | cons translated rest =>
        left
        exact ⟨translated, rest, htext, hcol, rfl, rfl,
          by simp [TranslateCell, htext, hcol, hget, hb]⟩
      | nil =>
        right; exact ⟨htext, hcol, rfl, rfl, by simp [TranslateCell, htext, hcol, hget, hb]⟩

theorem translateCell_excludeCols (backend : Backend) (t : Translator) (w : World)
    (text header : String) :
    (TranslateCell backend t w text header).t.excludeCols = t.excludeCols := by
  rcases translateCell_cases backend t w text header with
    ⟨h, _⟩ | ⟨_, _, _, _, h⟩ | ⟨_, _, _, _, _, h⟩ | ⟨_, _, _, _, _, _, h⟩ | ⟨_, _, _, _, h⟩ <;>
  rw [h]

theorem translateCell_cache_get_mono (backend : Backend) (t : Translator) (w : World)
    (text header key value : String) (h : t.cache.get key = some value) :
    (TranslateCell backend t w text header).t.cache.get key = some value := by
  rcases translateCell_cases backend t w text header with
    ⟨e, _⟩ | ⟨_, _, _, _, e⟩ | ⟨_, _, _, _, _, e⟩ | ⟨_, _, _, _, hget, _, e⟩ | ⟨_, _, _, _, e⟩ <;>
  rw [e]
  any_goals exact h
  have hne : key ≠ text := by
    rintro rfl
    rw [h] at hget
    cases hget
  simpa [cache_get_set_of_ne _ _ _ _ hne] using h

/-- C7: across any call of `TranslateCell` every key of the cache keeps its
value; the cache is either left as it was or extended by one binding for a text
that was not a key, so a key is inserted at most once and never overwritten; and
a non-empty text of a non-excluded column that is already a key is answered with
the stored value, without any request and without any change of state. -/
theorem translateCell_cache_invariant (backend : Backend) (t : Translator) (w : World)
    (text header : String) :
    (∀ key value, t.cache.get key = some value →
      (TranslateCell backend t w text header).t.cache.get key = some value) ∧
    ((TranslateCell backend t w text header).t.cache = t.cache ∨
      ∃ translated, t.cache.get text = none ∧
        (TranslateCell backend t w text header).t.cache = (text, translated) :: t.cache) ∧
    (∀ value, text ≠ "" → header ∉ t.excludeCols → t.cache.get text = some value →
      TranslateCell backend t w text header = ⟨value, t, w⟩) := by
  refine ⟨fun key value h => translateCell_cache_get_mono backend t w text header key value h,
    ?_, ?_⟩
  · rcases translateCell_cases backend t w text header with
      ⟨e, _⟩ | ⟨_, _, _, _, e⟩ | ⟨_, _, _, _, _, e⟩ | ⟨tr, _, _, _, hget, _, e⟩ | ⟨_, _, _, _, e⟩ <;>
    rw [e] <;>
    first
      | exact Or.inl rfl
      | exact Or.inr ⟨tr, hget, rfl⟩
  · intro value htext hcol hget
    simp [TranslateCell, htext, hcol, hget]

theorem translateCell_cache_invariant_witness :
    TranslateCell (fun _ _ => .ok ["hi"]) ⟨[("hola", "hello")], ["id"]⟩ ⟨[], []⟩
      "hola" "greeting" = ⟨"hello", ⟨[("hola", "hello")], ["id"]⟩, ⟨[], []⟩⟩ :=
  (translateCell_cache_invariant (fun _ _ => .ok ["hi"]) ⟨[("hola", "hello")], ["id"]⟩
    ⟨[], []⟩ "hola" "greeting").2.2 "hello" (by decide) (by decide) (by decide)

/-- C9, at the failing input: when the service answers "hola" (column "greeting",
not excluded, not cached) with zero translations, the text is passed through
after one request and nothing is logged, whereas a service error for the same
cell is logged with the column name. -/
theorem translateCell_empty_result_not_logged :
    TranslateCell (fun _ _ => .ok []) ⟨[], []⟩ ⟨[], []⟩ "hola" "greeting"
      = ⟨"hola", ⟨[], []⟩, ⟨["hola"], []⟩⟩ ∧
    TranslateCell (fun _ _ => .error "unavailable") ⟨[], []⟩ ⟨[], []⟩ "hola" "greeting"
      = ⟨"hola", ⟨[], []⟩, ⟨["hola"], ["Translation error for column greeting: unavailable"]⟩⟩ := by
  decide

/-! ## Strings, the output path and the exclusion argument -/

theorem trimSuffix_append (s suffix : String) : TrimSuffix (s ++ suffix) suffix = s := by
  have hsuf : HasSuffix (s ++ suffix) suffix = true := by
    simp [HasSuffix, String.data_append]
  unfold TrimSuffix
  rw [if_pos hsuf]
  apply String.ext
  simp [String.data_append]

theorem trimSuffix_of_not_hasSuffix (s suffix : String) (h : HasSuffix s suffix = false) :
    TrimSuffix s suffix = s := by
  simp [TrimSuffix, h]

theorem ext_append_csv (s : String) : Ext (s ++ ".csv") = ".csv" := by
  apply String.ext
  have h : (s ++ ".csv").data.reverse = 'v' :: 's' :: 'c' :: '.' :: s.data.reverse := by
    simp [String.data_append]
  simp [Ext, h, extScan]

theorem insertBeforeExt_append_csv (s marker : String) :
    insertBeforeExt (s ++ ".csv") marker = s ++ marker ++ ".csv" := by
  unfold insertBeforeExt
  rw [ext_append_csv]
  apply String.ext
  simp [String.data_append]

theorem processCSV_outPath (backend : Backend) (fs : FileSystem) (inputPath : String)
    (t : Translator) (w : World) :
    (ProcessCSV backend fs inputPath t w).outPath = none ∨
    (ProcessCSV backend fs inputPath t w).outPath = some (outPath inputPath) := by
  unfold ProcessCSV
  split
  · exact Or.inl rfl
  · split
    · exact Or.inl rfl
    · split
      · exact Or.inr rfl
      · split
        · exact Or.inr rfl
        · exact Or.inr rfl

/-- C10, refuted as stated: the output path of `data.txt` is
`data.txt_translated.csv`, not `data_translated.txt`, the path with the marker
put before its extension. -/
theorem outPath_not_insertBeforeExt :
    outPath "data.txt" = "data.txt_translated.csv" ∧
    insertBeforeExt "data.txt" "_translated" = "data_translated.txt" ∧
    ¬ ∀ p : String, outPath p = insertBeforeExt p "_translated" := by
  refine ⟨by decide, by decide, fun h => ?_⟩
  have := h "data.txt"
  revert this
  decide

/-- C10, amended: the output path computed by `ProcessCSV` is a function of the
input path alone, the same for every service, file system and translator; a
path `s ++ ".csv"` maps to `s ++ "_translated.csv"`, which is the path with the
marker put right before its extension; a path that does not end in `.csv` maps
to itself followed by `_translated.csv`. -/
theorem outPath_trims_csv_suffix :
    (∀ (backend : Backend) (fs : FileSystem) (p : String) (t : Translator) (w : World),
      (ProcessCSV backend fs p t w).outPath = none ∨
      (ProcessCSV backend fs p t w).outPath = some (outPath p)) ∧
    (∀ s : String, outPath (s ++ ".csv") = s ++ "_translated.csv" ∧
      outPath (s ++ ".csv") = insertBeforeExt (s ++ ".csv") "_translated") ∧
    (∀ p : String, HasSuffix p ".csv" = false → outPath p = p ++ "_translated.csv") := by
  refine ⟨processCSV_outPath, fun s => ?_, fun p hp => ?_⟩
  · have h1 : outPath (s ++ ".csv") = s ++ "_translated.csv" := by
      simp [outPath, trimSuffix_append]
    refine ⟨h1, ?_⟩
    rw [h1, insertBeforeExt_append_csv]
    apply String.ext
    simp [String.data_append]
  · simp [outPath, trimSuffix_of_not_hasSuffix _ _ hp]

theorem outPath_trims_csv_suffix_witness :
    HasSuffix "notes.txt" ".csv" = false ∧ outPath "notes.txt" = "notes.txt" ++ "_translated.csv" :=
  ⟨by decide, outPath_trims_csv_suffix.2.2 "notes.txt" (by decide)⟩

theorem splitChars_of_not_mem (sep : Char) (l : List Char) (h : ∀ c ∈ l, c ≠ sep) :
    splitChars sep l = [l] := by
  induction l with
  | nil => rfl
  | cons c cs ih =>
    have hc : c ≠ sep := h c (List.mem_cons_self _ _)
    have hcs : ∀ d ∈ cs, d ≠ sep := fun d hd => h d (List.mem_cons_of_mem _ hd)
    simp [splitChars, hc, ih hcs]

theorem split_of_no_separator (s : String) (sep : Char) (h : ∀ c ∈ s.data, c ≠ sep) :
    Split s sep = [s] := by
  simp [Split, splitChars_of_not_mem sep s.data h]

theorem mem_newExcludeMap_foldl (exclude acc : List String) (name : String) :
    name ∈ exclude.foldl (fun m col => if col ∈ m then m else col :: m) acc ↔
      name ∈ acc ∨ name ∈ exclude := by
  induction exclude generalizing acc with
  | nil => simp
  | cons col cols ih =>
    rw [List.foldl_cons, ih]
    by_cases hmem : col ∈ acc
    · simp only [if_pos hmem, List.mem_cons]
      constructor
      · rintro (h | h)
        · exact Or.inl h
        · exact Or.inr (Or.inr h)
      · rintro (h | h | h)
        · exact Or.inl h
        · exact Or.inl (h ▸ hmem)
        · exact Or.inr h
    · simp only [if_neg hmem, List.mem_cons]
      tauto

theorem mem_newExcludeMap (exclude : List String) (name : String) :
    name ∈ newExcludeMap exclude ↔ name ∈ exclude := by
  simp [newExcludeMap, mem_newExcludeMap_foldl]

theorem whitespace_ne_comma (c : Char) (h : c.isWhitespace = true) : c ≠ ',' := by
  rintro rfl
  revert h
  decide

/-- C8, refuted as stated: with an empty exclude argument the policy built by
`main` and `NewTranslator` contains the empty header name, and with the argument
`" "` it contains the header `" "`; a cell of a column with the empty name then
goes through the excluded-column branch, untranslated and without a request. -/
theorem empty_argument_excludes_empty_header :
    NewTranslator none (mainExcludeCols "") = .ok ⟨[], [""]⟩ ∧
    NewTranslator none (mainExcludeCols " ") = .ok ⟨[], [" "]⟩ ∧
    TranslateCell upperBackend ⟨[], [""]⟩ ⟨[], []⟩ "hola" "" = ⟨"hola", ⟨[], [""]⟩, ⟨[], []⟩⟩ ∧
    ¬ ∀ header : String, header ∉ newExcludeMap (mainExcludeCols "") := by
  refine ⟨?_, ?_, by decide, fun h => h "" (by decide)⟩
  · have h : newExcludeMap (mainExcludeCols "") = [""] := by decide
    simp [NewTranslator, h]
  · have h : newExcludeMap (mainExcludeCols " ") = [" "] := by decide
    simp [NewTranslator, h]

theorem translateCell_requests_of_miss (backend : Backend) (t : Translator) (w : World)
    (text header : String) (htext : text ≠ "") (hcol : header ∉ t.excludeCols)
    (hmiss : t.cache.get text = none) :
    (TranslateCell backend t w text header).w.requests = w.requests ++ [text] := by
  rcases translateCell_cases backend t w text header with
    ⟨_, h | h⟩ | ⟨_, _, _, hget, _⟩ | ⟨_, _, _, _, _, e⟩ | ⟨_, _, _, _, _, _, e⟩ |
    ⟨_, _, _, _, e⟩
  · exact absurd h htext
  · exact absurd h hcol
  · rw [hmiss] at hget; cases hget
  · rw [e]
  · rw [e]
  · rw [e]

/-- C8, amended: building the policy from the exclude argument of `main` does
not fail, and for an empty or whitespace-only argument the exclusion test of the
resulting translator is false for every header name other than the argument
itself; for a non-empty cell of such a column `TranslateCell` does not take the
excluded-column branch: with the fresh translator it sends the text to the
service. -/
theorem blank_argument_excludes_no_other_header (arg : String)
    (hblank : ∀ c ∈ arg.data, c.isWhitespace = true) :
    ∃ t, NewTranslator none (mainExcludeCols arg) = .ok t ∧
      (∀ header : String, header ≠ arg → header ∉ t.excludeCols) ∧
      (∀ (backend : Backend) (w : World) (text header : String), text ≠ "" → header ≠ arg →
        (TranslateCell backend t w text header).w.requests = w.requests ++ [text]) := by
  have hsplit : mainExcludeCols arg = [arg] :=
    split_of_no_separator arg ',' (fun c hc => whitespace_ne_comma c (hblank c hc))
  have hnot : ∀ header : String, header ≠ arg →
      header ∉ newExcludeMap (mainExcludeCols arg) := by
    intro header hne hmem
    rw [mem_newExcludeMap, hsplit] at hmem
    simp at hmem
    exact hne hmem
  refine ⟨⟨[], newExcludeMap (mainExcludeCols arg)⟩, rfl, hnot, ?_⟩
  intro backend w text header htext hne
  exact translateCell_requests_of_miss backend _ w text header htext (hnot header hne) rfl

theorem blank_argument_excludes_no_other_header_witness :
    (∀ c ∈ ("  " : String).data, c.isWhitespace = true) ∧
    ∃ t, NewTranslator none (mainExcludeCols "  ") = .ok t ∧
      (∀ header : String, header ≠ "  " → header ∉ t.excludeCols) ∧
      (∀ (backend : Backend) (w : World) (text header : String), text ≠ "" → header ≠ "  " →
        (TranslateCell backend t w text header).w.requests = w.requests ++ [text]) :=
  ⟨by decide, blank_argument_excludes_no_other_header "  " (by decide)⟩

/-! ## The CSV reader and the loop over one row -/

theorem checkFieldCount_clean (fieldsPerRecord : Nat) (raw : RawRecord)
    (hpos : 0 < fieldsPerRecord) (herr : raw.err = none)
    (hlen : raw.dst.length = fieldsPerRecord) :
    checkFieldCount fieldsPerRecord raw = (.ok raw.dst, fieldsPerRecord) := by
  simp [checkFieldCount, hpos, herr, hlen]

theorem checkFieldCount_wrong_length (fieldsPerRecord : Nat) (raw : RawRecord)
    (hpos : 0 < fieldsPerRecord) (hlen : raw.dst.length ≠ fieldsPerRecord) :
    ∃ err, checkFieldCount fieldsPerRecord raw = (.error err, fieldsPerRecord) := by
  cases herr : raw.err with
  | some msg => exact ⟨.parse msg, by simp [checkFieldCount, hpos, herr]⟩
  | none => exact ⟨.fieldCount, by simp [checkFieldCount, hpos, herr, hlen]⟩

theorem checkFieldCount_ok (fieldsPerRecord fieldsPerRecord1 : Nat) (raw : RawRecord)
    (record : List String)
    (h : checkFieldCount fieldsPerRecord raw = (.ok record, fieldsPerRecord1)) :
    record = raw.dst ∧
    (0 < fieldsPerRecord → record.length = fieldsPerRecord ∧ fieldsPerRecord1 = fieldsPerRecord) ∧
    (fieldsPerRecord = 0 → fieldsPerRecord1 = record.length) := by
  unfold checkFieldCount at h
  by_cases hpos : 0 < fieldsPerRecord
  · rw [if_pos hpos] at h
    cases herr : raw.err with
    | some msg => simp [herr] at h
    | none =>
      simp only [herr] at h
      by_cases hlen : raw.dst.length = fieldsPerRecord
      · simp [hlen] at h
        obtain ⟨h1, h2⟩ := h
        subst h1 h2
        exact ⟨rfl, fun _ => ⟨hlen, rfl⟩, fun h0 => by omega⟩
      · simp [hlen] at h
  · rw [if_neg hpos] at h
    cases herr : raw.err with
    | some msg => simp [herr] at h
    | none =>
      simp [herr] at h
      obtain ⟨h1, h2⟩ := h
      subst h1 h2
      exact ⟨rfl, fun h0 => absurd h0 hpos, fun _ => rfl⟩

theorem specRow_length (backend : Backend) (headers cells : List String) (t : Translator)
    (w : World) (hlen : cells.length = headers.length) :
    (specRow backend headers cells t w).1.length = headers.length := by
  induction headers generalizing cells t w with
  | nil => cases cells <;> simp [specRow]
  | cons header headers ih =>
    cases cells with
    | nil => simp at hlen
    | cons cell cells =>
      simp only [List.length_cons, Nat.add_right_cancel_iff] at hlen
      simp [specRow, ih _ _ _ hlen]

theorem translateCells_eq_specRow (backend : Backend) (done headers cells : List String)
    (t : Translator) (w : World) (hlen : cells.length = headers.length) :
    translateCells backend (done ++ headers) done.length cells t w =
      ⟨(specRow backend headers cells t w).1, false,
        (specRow backend headers cells t w).2.1, (specRow backend headers cells t w).2.2⟩ := by
  induction cells generalizing done headers t w with
  | nil => cases headers <;> simp [translateCells, specRow]
  | cons cell cells ih =>
    cases headers with
    | nil => simp at hlen
    | cons header headers =>
      simp only [List.length_cons, Nat.add_right_cancel_iff] at hlen
      have hget : (done ++ header :: headers)[done.length]? = some header := by
        rw [List.getElem?_append_right (Nat.le_refl _)]
        simp
      have hnext := ih (done ++ [header]) headers
        (TranslateCell backend t w cell header).t (TranslateCell backend t w cell header).w hlen
      simp only [List.append_assoc, List.singleton_append, List.length_append,
        List.length_singleton] at hnext
      simp only [translateCells, hget, hnext, specRow]

theorem translateCells_zero_eq_specRow (backend : Backend) (headers cells : List String)
    (t : Translator) (w : World) (hlen : cells.length = headers.length) :
    translateCells backend headers 0 cells t w =
      ⟨(specRow backend headers cells t w).1, false,
        (specRow backend headers cells t w).2.1, (specRow backend headers cells t w).2.2⟩ := by
  simpa using translateCells_eq_specRow backend [] headers cells t w hlen

theorem specRows_length (backend : Backend) (headers : List String) (rows : List (List String))
    (t : Translator) (w : World) :
    (specRows backend headers rows t w).1.length = rows.length := by
  induction rows generalizing t w with
  | nil => simp [specRows]
  | cons row rows ih => simp [specRows, ih]

theorem specRows_row_length (backend : Backend) (headers : List String)
    (rows : List (List String)) (t : Translator) (w : World)
    (hrows : ∀ row ∈ rows, row.length = headers.length) :
    ∀ out ∈ (specRows backend headers rows t w).1, out.length = headers.length := by
  induction rows generalizing t w with
  | nil => simp [specRows]
  | cons row rows ih =>
    intro out hout
    simp only [specRows, List.mem_cons] at hout
    rcases hout with rfl | hout
    · exact specRow_length backend headers row t w (hrows row (List.mem_cons_self _ _))
    · exact ih _ _ (fun r hr => hrows r (List.mem_cons_of_mem _ hr)) out hout

/-- Over a prefix of records that all read cleanly with the header's length, the
row loop writes the rows of `specRows` and then goes on with the rest. -/
theorem rowLoop_clean_rows (backend : Backend) (writeErr : Nat → Option String)
    (headers : List String) (pre rest : List RawRecord) (rowNum : Nat)
    (t : Translator) (w : World) (hpos : 0 < headers.length)
    (hpre : ∀ raw ∈ pre, raw.err = none ∧ raw.dst.length = headers.length)
    (hwrite : ∀ k, writeErr k = none) :
    (rowLoop backend writeErr headers headers.length (pre ++ rest) rowNum t w).outcome =
      (rowLoop backend writeErr headers headers.length rest (rowNum + pre.length)
        (specRows backend headers (pre.map RawRecord.dst) t w).2.1
        (specRows backend headers (pre.map RawRecord.dst) t w).2.2).outcome ∧
    (rowLoop backend writeErr headers headers.length (pre ++ rest) rowNum t w).written =
      (specRows backend headers (pre.map RawRecord.dst) t w).1 ++
      (rowLoop backend writeErr headers headers.length rest (rowNum + pre.length)
        (specRows backend headers (pre.map RawRecord.dst) t w).2.1
        (specRows backend headers (pre.map RawRecord.dst) t w).2.2).written ∧
    (rowLoop backend writeErr headers headers.length (pre ++ rest) rowNum t w).t =
      (rowLoop backend writeErr headers headers.length rest (rowNum + pre.length)
        (specRows backend headers (pre.map RawRecord.dst) t w).2.1
        (specRows backend headers (pre.map RawRecord.dst) t w).2.2).t ∧
    (rowLoop backend writeErr headers headers.length (pre ++ rest) rowNum t w).w =
      (rowLoop backend writeErr headers headers.length rest (rowNum + pre.length)
        (specRows backend headers (pre.map RawRecord.dst) t w).2.1
        (specRows backend headers (pre.map RawRecord.dst) t w).2.2).w := by
  induction pre generalizing rowNum t w with
  | nil => simp [specRows]
  | cons raw pre ih =>
    obtain ⟨herr, hlen⟩ := hpre raw (List.mem_cons_self _ _)
    have hpre1 : ∀ r ∈ pre, r.err = none ∧ r.dst.length = headers.length :=
      fun r hr => hpre r (List.mem_cons_of_mem _ hr)
    have hread := checkFieldCount_clean headers.length raw hpos herr hlen
    have hrow := translateCells_zero_eq_specRow backend headers raw.dst t w hlen
    have hnext := ih (rowNum + 1) (specRow backend headers raw.dst t w).2.1
      (specRow backend headers raw.dst t w).2.2 hpre1
    have harith : rowNum + 1 + pre.length = rowNum + (pre.length + 1) := by omega
    rw [harith] at hnext
    simp only [List.cons_append, rowLoop, hread, hrow, hwrite, List.map_cons, specRows,
      List.length_cons, Bool.false_eq_true, if_false]
    simpa using hnext

/-! ## ProcessCSV -/

theorem translateCells_in_range (backend : Backend) (headers cells : List String) (i : Nat)
    (t : Translator) (w : World) (hlen : i + cells.length ≤ headers.length) :
    (translateCells backend headers i cells t w).panicked = false := by
  induction cells generalizing i t w with
  | nil => simp [translateCells]
  | cons cell cells ih =>
    simp only [List.length_cons] at hlen
    have hi : i < headers.length := by omega
    have hget : headers[i]? = some headers[i] := List.getElem?_eq_getElem hi
    simp only [translateCells, hget]
    exact ih (i + 1) _ _ (by omega)

theorem rowLoop_no_index_panic (backend : Backend) (writeErr : Nat → Option String)
    (headers : List String) (pending : List RawRecord) (rowNum : Nat)
    (t : Translator) (w : World) (hpos : 0 < headers.length) :
    (rowLoop backend writeErr headers headers.length pending rowNum t w).outcome
      ≠ .indexOutOfRange := by
  induction pending generalizing rowNum t w with
  | nil => simp [rowLoop]
  | cons raw rest ih =>
    unfold rowLoop
    split
    · simp
    · rename_i record fieldsPerRecord1 hread
      obtain ⟨_, h1, _⟩ := checkFieldCount_ok _ _ _ _ hread
      obtain ⟨hlen, hfpr⟩ := h1 hpos
      have hin := translateCells_in_range backend headers record 0 t w (by omega)
      simp only [hin, Bool.false_eq_true, if_false]
      split
      · simp
      · rw [hfpr]
        exact ih _ _ _

theorem processCSV_no_index_panic (backend : Backend) (fs : FileSystem) (inputPath : String)
    (t : Translator) (w : World) :
    (ProcessCSV backend fs inputPath t w).outcome ≠ .indexOutOfRange := by
  unfold ProcessCSV
  split
  · simp
  · rename_i input hopen
    split
    · simp
    · rename_i headers r hread
      split
      · simp
      · split
        · simp
        · cases input with
          | nil => simp [NewReader, Reader.Read] at hread
          | cons raw rest =>
            simp only [NewReader, Reader.Read, Prod.mk.injEq] at hread
            obtain ⟨h1, h2⟩ := hread
            cases raw with
            | malformed dst msg => simp [checkFieldCount, RawRecord.err] at h1
            | fields first more =>
              simp [checkFieldCount, RawRecord.err, RawRecord.dst] at h1 h2
              subst h1 h2
              exact rowLoop_no_index_panic backend fs.writeErr (first :: more) rest 1 t w
                (by simp)

theorem processCSV_of_header (backend : Backend) (fs : FileSystem) (inputPath : String)
    (t : Translator) (w : World) (first : String) (more : List String)
    (rows : List RawRecord)
    (hopen : fs.openInput inputPath = .ok (.fields first more :: rows))
    (hcreate : fs.create (outPath inputPath) = none) (hwrite0 : fs.writeErr 0 = none) :
    (ProcessCSV backend fs inputPath t w).outcome =
      (rowLoop backend fs.writeErr (first :: more) (first :: more).length rows 1 t w).outcome ∧
    (ProcessCSV backend fs inputPath t w).written = (first :: more) ::
      (rowLoop backend fs.writeErr (first :: more) (first :: more).length rows 1 t w).written ∧
    (ProcessCSV backend fs inputPath t w).t =
      (rowLoop backend fs.writeErr (first :: more) (first :: more).length rows 1 t w).t ∧
    (ProcessCSV backend fs inputPath t w).w =
      (rowLoop backend fs.writeErr (first :: more) (first :: more).length rows 1 t w).w := by
  simp [ProcessCSV, hopen, NewReader, Reader.Read, checkFieldCount, RawRecord.err,
    RawRecord.dst, hcreate, hwrite0]

/-- C5: when the input opens, the header and every data row read without error
and every data row has the header's length (and the output file can be created
and written), `ProcessCSV` returns without error, having written the header row
unchanged followed by one row per data row, in input order, every row as long as
the header and equal to the row of `specRows`: cell `i` of row `k` is
`TranslateCell(row_k[i], header[i])` evaluated in row-major order against the
state left by all earlier cells. -/
theorem processCSV_clean_input (backend : Backend) (fs : FileSystem) (inputPath : String)
    (t : Translator) (w : World) (first : String) (more : List String)
    (rows : List RawRecord)
    (hopen : fs.openInput inputPath = .ok (.fields first more :: rows))
    (hrows : ∀ raw ∈ rows, raw.err = none ∧ raw.dst.length = (first :: more).length)
    (hcreate : fs.create (outPath inputPath) = none) (hwrite : ∀ k, fs.writeErr k = none) :
    (ProcessCSV backend fs inputPath t w).outcome = .ok ∧
    (ProcessCSV backend fs inputPath t w).written =
      (first :: more) :: (specRows backend (first :: more) (rows.map RawRecord.dst) t w).1 ∧
    (ProcessCSV backend fs inputPath t w).written.length = rows.length + 1 ∧
    (∀ row ∈ (ProcessCSV backend fs inputPath t w).written,
      row.length = (first :: more).length) ∧
    (ProcessCSV backend fs inputPath t w).t =
      (specRows backend (first :: more) (rows.map RawRecord.dst) t w).2.1 ∧
    (ProcessCSV backend fs inputPath t w).w =
      (specRows backend (first :: more) (rows.map RawRecord.dst) t w).2.2 := by
  obtain ⟨ho, hwr, ht, hw⟩ :=
    processCSV_of_header backend fs inputPath t w first more rows hopen hcreate (hwrite 0)
  obtain ⟨lo, lwr, lt, lw⟩ := rowLoop_clean_rows backend fs.writeErr (first :: more) rows []
    1 t w (by simp) hrows hwrite
  simp only [List.append_nil, rowLoop] at lo lwr lt lw
  rw [ho, hwr, ht, hw, lo, lwr, lt, lw]
  refine ⟨rfl, rfl, ?_, ?_, rfl, rfl⟩
  · simp [specRows_length]
  · intro row hrow
    simp only [List.mem_cons] at hrow
    rcases hrow with rfl | hrow
    · rfl
    · exact specRows_row_length backend (first :: more) (rows.map RawRecord.dst) t w
        (by
          intro r hr
          simp only [List.mem_map] at hr
          obtain ⟨raw, hraw, rfl⟩ := hr
          exact (hrows raw hraw).2) row hrow

/-- C6: when data row `N` is the first record whose field count differs from
the header's, the rows before it having read cleanly (and the output file can be
created and written), `ProcessCSV` returns a `read row N` error, does not index
the header out of range, and has written only the header and the translations of
rows `1..N-1`: no row for row `N` or any later row. -/
theorem processCSV_wrong_field_count (backend : Backend) (fs : FileSystem)
    (inputPath : String) (t : Translator) (w : World) (first : String) (more : List String)
    (pre : List RawRecord) (bad : RawRecord) (post : List RawRecord)
    (hopen : fs.openInput inputPath = .ok (.fields first more :: (pre ++ bad :: post)))
    (hpre : ∀ raw ∈ pre, raw.err = none ∧ raw.dst.length = (first :: more).length)
    (hbad : bad.dst.length ≠ (first :: more).length)
    (hcreate : fs.create (outPath inputPath) = none) (hwrite : ∀ k, fs.writeErr k = none) :
    (∃ err, (ProcessCSV backend fs inputPath t w).outcome =
      .failed (.readRow (pre.length + 1) err)) ∧
    (ProcessCSV backend fs inputPath t w).outcome ≠ .indexOutOfRange ∧
    (ProcessCSV backend fs inputPath t w).written =
      (first :: more) :: (specRows backend (first :: more) (pre.map RawRecord.dst) t w).1 ∧
    (ProcessCSV backend fs inputPath t w).written.length = pre.length + 1 := by
  obtain ⟨ho, hwr, _, _⟩ := processCSV_of_header backend fs inputPath t w first more
    (pre ++ bad :: post) hopen hcreate (hwrite 0)
  obtain ⟨lo, lwr, _, _⟩ := rowLoop_clean_rows backend fs.writeErr (first :: more) pre
    (bad :: post) 1 t w (by simp) hpre hwrite
  obtain ⟨err, hread⟩ := checkFieldCount_wrong_length (first :: more).length bad (by simp) hbad
  simp only [rowLoop, hread] at lo lwr
  rw [hwr, lwr]
  refine ⟨⟨err, ?_⟩, processCSV_no_index_panic backend fs inputPath t w, by simp, ?_⟩
  · rw [ho, lo, Nat.add_comm]
  · simp [specRows_length]

theorem processCSV_clean_input_witness :
    (ProcessCSV upperBackend (fileWith parisInput) "in.csv" ⟨[], ["id"]⟩ ⟨[], []⟩).outcome
      = .ok ∧
    (ProcessCSV upperBackend (fileWith parisInput) "in.csv" ⟨[], ["id"]⟩ ⟨[], []⟩).written
      = ["id", "city"] :: (specRows upperBackend ["id", "city"]
          [["1", "Paris"], ["2", "Paris"], ["3", ""]] ⟨[], ["id"]⟩ ⟨[], []⟩).1 :=
  have h := processCSV_clean_input upperBackend (fileWith parisInput) "in.csv"
    ⟨[], ["id"]⟩ ⟨[], []⟩ "id" ["city"]
    [.fields "1" ["Paris"], .fields "2" ["Paris"], .fields "3" [""]]
    rfl (by decide) rfl (fun _ => rfl)
  ⟨h.1, h.2.1⟩

theorem processCSV_wrong_field_count_witness :
    ∃ err, (ProcessCSV upperBackend (fileWith raggedInput) "in.csv" ⟨[], ["id"]⟩
      ⟨[], []⟩).outcome = .failed (.readRow 2 err) :=
  (processCSV_wrong_field_count upperBackend (fileWith raggedInput) "in.csv"
    ⟨[], ["id"]⟩ ⟨[], []⟩ "id" ["city"] [.fields "1" ["Paris"]]
    (.fields "2" ["Lyon", "extra"]) [.fields "3" ["Nice"]]
    rfl (by decide) (by decide) rfl (fun _ => rfl)).1

/-! ## Properties kept by every call of TranslateCell during a run -/

theorem translateCells_preserves (P : Translator → World → Prop) (backend : Backend)
    (headers : List String)
    (hstep : ∀ t w text header, P t w →
      P (TranslateCell backend t w text header).t (TranslateCell backend t w text header).w)
    (cells : List String) (i : Nat) (t : Translator) (w : World) (h : P t w) :
    P (translateCells backend headers i cells t w).t
      (translateCells backend headers i cells t w).w := by
  induction cells generalizing i t w with
  | nil => simpa [translateCells] using h
  | cons cell cells ih =>
    unfold translateCells
    split
    · exact h
    · exact ih (i + 1) _ _ (hstep t w cell _ h)

theorem rowLoop_read_error (backend : Backend) (writeErr : Nat → Option String)
    (headers : List String) (fieldsPerRecord fieldsPerRecord1 : Nat) (raw : RawRecord)
    (rest : List RawRecord) (rowNum : Nat) (t : Translator) (w : World) (err : ReadError)
    (hread : checkFieldCount fieldsPerRecord raw = (.error err, fieldsPerRecord1)) :
    rowLoop backend writeErr headers fieldsPerRecord (raw :: rest) rowNum t w =
      ⟨.failed (.readRow rowNum err), [], [], t, w⟩ := by
  simp [rowLoop, hread]

theorem rowLoop_index_panic (backend : Backend) (writeErr : Nat → Option String)
    (headers : List String) (fieldsPerRecord fieldsPerRecord1 : Nat) (raw : RawRecord)
    (rest : List RawRecord) (rowNum : Nat) (t : Translator) (w : World)
    (record : List String)
    (hread : checkFieldCount fieldsPerRecord raw = (.ok record, fieldsPerRecord1))
    (hpanic : (translateCells backend headers 0 record t w).panicked = true) :
    rowLoop backend writeErr headers fieldsPerRecord (raw :: rest) rowNum t w =
      ⟨.indexOutOfRange, [], ["Processing row " ++ toString rowNum],
        (translateCells backend headers 0 record t w).t,
        (translateCells backend headers 0 record t w).w⟩ := by
  simp [rowLoop, hread, hpanic]

theorem rowLoop_write_error (backend : Backend) (writeErr : Nat → Option String)
    (headers : List String) (fieldsPerRecord fieldsPerRecord1 : Nat) (raw : RawRecord)
    (rest : List RawRecord) (rowNum : Nat) (t : Translator) (w : World)
    (record : List String) (err : String)
    (hread : checkFieldCount fieldsPerRecord raw = (.ok record, fieldsPerRecord1))
    (hpanic : (translateCells backend headers 0 record t w).panicked = false)
    (hwrite : writeErr rowNum = some err) :
    rowLoop backend writeErr headers fieldsPerRecord (raw :: rest) rowNum t w =
      ⟨.failed (.writeRow rowNum err), [], ["Processing row " ++ toString rowNum],
        (translateCells backend headers 0 record t w).t,
        (translateCells backend headers 0 record t w).w⟩ := by
  simp [rowLoop, hread, hpanic, hwrite]

theorem rowLoop_row_written (backend : Backend) (writeErr : Nat → Option String)
    (headers : List String) (fieldsPerRecord fieldsPerRecord1 : Nat) (raw : RawRecord)
    (rest : List RawRecord) (rowNum : Nat) (t : Translator) (w : World)
    (record : List String)
    (hread : checkFieldCount fieldsPerRecord raw = (.ok record, fieldsPerRecord1))
    (hpanic : (translateCells backend headers 0 record t w).panicked = false)
    (hwrite : writeErr rowNum = none) :
    rowLoop backend writeErr headers fieldsPerRecord (raw :: rest) rowNum t w =
      ⟨(rowLoop backend writeErr headers fieldsPerRecord1 rest (rowNum + 1)
          (translateCells backend headers 0 record t w).t
          (translateCells backend headers 0 record t w).w).outcome,
        (translateCells backend headers 0 record t w).record ::
          (rowLoop backend writeErr headers fieldsPerRecord1 rest (rowNum + 1)
            (translateCells backend headers 0 record t w).t
            (translateCells backend headers 0 record t w).w).written,
        ("Processing row " ++ toString rowNum) ::
          (rowLoop backend writeErr headers fieldsPerRecord1 rest (rowNum + 1)
            (translateCells backend headers 0 record t w).t
            (translateCells backend headers 0 record t w).w).stdout,
        (rowLoop backend writeErr headers fieldsPerRecord1 rest (rowNum + 1)
          (translateCells backend headers 0 record t w).t
          (translateCells backend headers 0 record t w).w).t,
        (rowLoop backend writeErr headers fieldsPerRecord1 rest (rowNum + 1)
          (translateCells backend headers 0 record t w).t
          (translateCells backend headers 0 record t w).w).w⟩ := by
  simp [rowLoop, hread, hpanic, hwrite]

theorem rowLoop_preserves (P : Translator → World → Prop) (backend : Backend)
    (writeErr : Nat → Option String) (headers : List String)
    (hstep : ∀ t w text header, P t w →
      P (TranslateCell backend t w text header).t (TranslateCell backend t w text header).w)
    (pending : List RawRecord) (fieldsPerRecord rowNum : Nat) (t : Translator) (w : World)
    (h : P t w) :
    P (rowLoop backend writeErr headers fieldsPerRecord pending rowNum t w).t
      (rowLoop backend writeErr headers fieldsPerRecord pending rowNum t w).w := by
  induction pending generalizing fieldsPerRecord rowNum t w with
  | nil => simpa [rowLoop] using h
  | cons raw rest ih =>
    rcases hread : checkFieldCount fieldsPerRecord raw with ⟨result, fieldsPerRecord1⟩
    cases result with
    | error err => rw [rowLoop_read_error _ _ _ _ _ _ _ _ _ _ _ hread]; exact h
    | ok record =>
      have hrow := translateCells_preserves P backend headers hstep record 0 t w h
      cases hpanic : (translateCells backend headers 0 record t w).panicked with
      | true => rw [rowLoop_index_panic _ _ _ _ _ _ _ _ _ _ _ hread hpanic]; exact hrow
      | false =>
        cases hwrite : writeErr rowNum with
        | some err =>
          rw [rowLoop_write_error _ _ _ _ _ _ _ _ _ _ _ _ hread hpanic hwrite]; exact hrow
        | none =>
          rw [rowLoop_row_written _ _ _ _ _ _ _ _ _ _ _ hread hpanic hwrite]
          exact ih fieldsPerRecord1 (rowNum + 1) _ _ hrow

theorem processCSV_preserves (P : Translator → World → Prop) (backend : Backend)
    (fs : FileSystem) (inputPath : String)
    (hstep : ∀ t w text header, P t w →
      P (TranslateCell backend t w text header).t (TranslateCell backend t w text header).w)
    (t : Translator) (w : World) (h : P t w) :
    P (ProcessCSV backend fs inputPath t w).t (ProcessCSV backend fs inputPath t w).w := by
  unfold ProcessCSV
  split
  · exact h
  · split
    · exact h
    · split
      · exact h
      · split
        · exact h
        · exact rowLoop_preserves P backend fs.writeErr _ hstep _ _ _ t w h

theorem translateCell_caches_answer (backend : Backend) (t : Translator) (w : World)
    (x header : String) (hx : x ≠ "")
    (hgood : ∀ history, ∃ tr rest, backend history x = .ok (tr :: rest))
    (hcol : header ∉ t.excludeCols) :
    (TranslateCell backend t w x header).t.cache.get x =
      some (TranslateCell backend t w x header).out := by
  obtain ⟨tr, rest, hb⟩ := hgood w.requests
  rcases translateCell_cases backend t w x header with
    ⟨_, h | h⟩ | ⟨_, _, _, hget, e⟩ | ⟨_, _, _, _, hb1, _⟩ | ⟨_, _, _, _, _, _, e⟩ |
    ⟨_, _, _, hb1, _⟩
  · exact absurd h hx
  · exact absurd h hcol
  · rw [e]; exact hget
  · rw [hb] at hb1; cases hb1
  · rw [e]; exact cache_get_set_self _ _ _
  · rw [hb] at hb1; cases hb1

/-- With a service that always translates `x`, the number of requests for `x`
grows by at most one over its value `c` at the start, and once it has grown `x`
is cached. -/
theorem translateCell_request_count (backend : Backend) (x : String) (c : Nat)
    (hgood : ∀ history, ∃ tr rest, backend history x = .ok (tr :: rest))
    (t : Translator) (w : World) (text header : String)
    (h : w.requests.count x ≤ c + 1 ∧
      (c < w.requests.count x → ∃ v, t.cache.get x = some v)) :
    (TranslateCell backend t w text header).w.requests.count x ≤ c + 1 ∧
    (c < (TranslateCell backend t w text header).w.requests.count x →
      ∃ v, (TranslateCell backend t w text header).t.cache.get x = some v) := by
  obtain ⟨tr, rest, hb⟩ := hgood w.requests
  by_cases hxt : text = x
  · subst hxt
    rcases translateCell_cases backend t w text header with
      ⟨e, _⟩ | ⟨_, _, _, _, e⟩ | ⟨_, _, _, _, hb1, _⟩ | ⟨v, _, _, _, hget, _, e⟩ |
      ⟨_, _, _, hb1, _⟩
    · rw [e]; exact h
    · rw [e]; exact h
    · rw [hb] at hb1; cases hb1
    · rw [e]
      have hle : w.requests.count text ≤ c := by
        by_contra hlt
        obtain ⟨v1, hv1⟩ := h.2 (by omega)
        rw [hv1] at hget
        cases hget
      refine ⟨?_, fun _ => ⟨v, cache_get_set_self _ _ _⟩⟩
      simp only [List.count_append, List.count_singleton, beq_self_eq_true, if_true]
      omega
    · rw [hb] at hb1; cases hb1
  · have hcount : (w.requests ++ [text]).count x = w.requests.count x := by
      simp [List.count_append, List.count_singleton, hxt]
    have hne : x ≠ text := fun e => hxt e.symm
    rcases translateCell_cases backend t w text header with
      ⟨e, _⟩ | ⟨_, _, _, _, e⟩ | ⟨_, _, _, _, _, e⟩ | ⟨v, _, _, _, _, _, e⟩ | ⟨_, _, _, _, e⟩ <;>
    rw [e] <;> simp only [hcount]
    any_goals exact h
    refine ⟨h.1, fun hc => ?_⟩
    obtain ⟨v1, hv1⟩ := h.2 hc
    exact ⟨v1, by rw [cache_get_set_of_ne _ _ _ _ hne]; exact hv1⟩

/-! ## Repeated texts -/

theorem cellAt_nil (k i : Nat) : cellAt [] k i = none := by
  simp [cellAt]

theorem cellAt_cons_zero (row : List String) (rows : List (List String)) (i : Nat) :
    cellAt (row :: rows) 0 i = row[i]? := by
  simp [cellAt]

theorem cellAt_cons_succ (row : List String) (rows : List (List String)) (k i : Nat) :
    cellAt (row :: rows) (k + 1) i = cellAt rows k i := by
  simp [cellAt]

theorem translateCells_cache_get_mono (backend : Backend) (headers cells : List String)
    (i : Nat) (t : Translator) (w : World) (key value : String)
    (h : t.cache.get key = some value) :
    (translateCells backend headers i cells t w).t.cache.get key = some value :=
  translateCells_preserves (fun t1 _ => t1.cache.get key = some value) backend headers
    (fun t1 w1 text header h1 => translateCell_cache_get_mono backend t1 w1 text header _ _ h1)
    cells i t w h

theorem translateCells_excludeCols (backend : Backend) (headers cells : List String)
    (i : Nat) (t : Translator) (w : World) :
    (translateCells backend headers i cells t w).t.excludeCols = t.excludeCols :=
  translateCells_preserves (fun t1 _ => t1.excludeCols = t.excludeCols) backend headers
    (fun t1 w1 text header h1 =>
      (translateCell_excludeCols backend t1 w1 text header).trans h1)
    cells i t w rfl

/-- With a service that always translates `x`: a cell `x` of a non-excluded
column is written as the value cached for `x` at the end of its row. -/
theorem translateCells_answer_cached (backend : Backend) (headers : List String) (x : String)
    (hx : x ≠ "") (hgood : ∀ history, ∃ tr rest, backend history x = .ok (tr :: rest))
    (cells : List String) (i : Nat) (t : Translator) (w : World) (j : Nat) (h o : String)
    (hcell : cells[j]? = some x) (hheader : headers[i + j]? = some h)
    (hcol : h ∉ t.excludeCols)
    (hpanic : (translateCells backend headers i cells t w).panicked = false)
    (hout : (translateCells backend headers i cells t w).record[j]? = some o) :
    (translateCells backend headers i cells t w).t.cache.get x = some o := by
  induction cells generalizing i t w j with
  | nil => simp at hcell
  | cons cell cells ih =>
    cases hget : headers[i]? with
    | none => simp [translateCells, hget] at hpanic
    | some header =>
      simp only [translateCells, hget] at hpanic hout ⊢
      cases j with
      | zero =>
        simp only [List.getElem?_cons_zero, Option.some.injEq, Nat.add_zero] at hcell hout hheader
        rw [hget] at hheader
        cases hheader
        subst hcell hout
        exact translateCells_cache_get_mono backend headers cells (i + 1) _ _ _ _
          (translateCell_caches_answer backend t w cell h hx hgood hcol)
      | succ j =>
        simp only [List.getElem?_cons_succ] at hcell hout
        exact ih (i + 1) _ _ j hcell (by rw [← hheader]; congr 1; omega)
          (by rw [translateCell_excludeCols]; exact hcol) hpanic hout

/-- With a service that always translates `x`: every cell `x` of a non-excluded
column is written as the value cached for `x` at the end of the loop. -/
theorem rowLoop_answer_cached (backend : Backend) (writeErr : Nat → Option String)
    (headers : List String) (x : String) (hx : x ≠ "")
    (hgood : ∀ history, ∃ tr rest, backend history x = .ok (tr :: rest))
    (pending : List RawRecord) (fieldsPerRecord rowNum : Nat) (t : Translator) (w : World)
    (k i : Nat) (h o : String)
    (hcell : cellAt (pending.map RawRecord.dst) k i = some x)
    (hheader : headers[i]? = some h) (hcol : h ∉ t.excludeCols)
    (hout : cellAt (rowLoop backend writeErr headers fieldsPerRecord pending rowNum t w).written
      k i = some o) :
    (rowLoop backend writeErr headers fieldsPerRecord pending rowNum t w).t.cache.get x
      = some o := by
  induction pending generalizing fieldsPerRecord rowNum t w k with
  | nil => simp [cellAt_nil] at hcell
  | cons raw rest ih =>
    rcases hread : checkFieldCount fieldsPerRecord raw with ⟨result, fieldsPerRecord1⟩
    cases result with
    | error err =>
      rw [rowLoop_read_error _ _ _ _ _ _ _ _ _ _ _ hread] at hout
      simp [cellAt_nil] at hout
    | ok record =>
      obtain ⟨hrec, _, _⟩ := checkFieldCount_ok _ _ _ _ hread
      cases hpanic : (translateCells backend headers 0 record t w).panicked with
      | true =>
        rw [rowLoop_index_panic _ _ _ _ _ _ _ _ _ _ _ hread hpanic] at hout
        simp [cellAt_nil] at hout
      | false =>
        cases hwrite : writeErr rowNum with
        | some err =>
          rw [rowLoop_write_error _ _ _ _ _ _ _ _ _ _ _ _ hread hpanic hwrite] at hout
          simp [cellAt_nil] at hout
        | none =>
          rw [rowLoop_row_written _ _ _ _ _ _ _ _ _ _ _ hread hpanic hwrite] at hout ⊢
          simp only [List.map_cons] at hcell
          cases k with
          | zero =>
            rw [cellAt_cons_zero] at hcell hout
            rw [← hrec] at hcell
            have hrow := translateCells_answer_cached backend headers x hx hgood record 0 t w
              i h o hcell (by simpa using hheader) hcol hpanic hout
            exact rowLoop_preserves (fun t1 _ => t1.cache.get x = some o) backend writeErr
              headers
              (fun t1 w1 text header h1 =>
                translateCell_cache_get_mono backend t1 w1 text header _ _ h1)
              rest fieldsPerRecord1 (rowNum + 1) _ _ hrow
          | succ k =>
            rw [cellAt_cons_succ] at hcell hout
            exact ih fieldsPerRecord1 (rowNum + 1) _ _ k hcell
              (by rw [translateCells_excludeCols]; exact hcol) hout

theorem processCSV_answer_cached (backend : Backend) (fs : FileSystem) (inputPath : String)
    (t : Translator) (w : World) (x : String) (hx : x ≠ "")
    (hgood : ∀ history, ∃ tr rest, backend history x = .ok (tr :: rest))
    (input : List RawRecord) (hopen : fs.openInput inputPath = .ok input)
    (k i : Nat) (h o : String)
    (hcell : cellAt (input.map RawRecord.dst) (k + 1) i = some x)
    (hheader : cellAt (input.map RawRecord.dst) 0 i = some h) (hcol : h ∉ t.excludeCols)
    (hout : cellAt (ProcessCSV backend fs inputPath t w).written (k + 1) i = some o) :
    (ProcessCSV backend fs inputPath t w).t.cache.get x = some o := by
  cases input with
  | nil => simp [cellAt_nil] at hcell
  | cons raw rows =>
    cases raw with
    | malformed dst msg =>
      simp [ProcessCSV, hopen, NewReader, Reader.Read, checkFieldCount, RawRecord.err,
        cellAt_nil] at hout
    | fields first more =>
      simp only [List.map_cons, cellAt_cons_succ, cellAt_cons_zero, RawRecord.dst]
        at hcell hheader
      cases hcreate : fs.create (outPath inputPath) with
      | some err =>
        simp [ProcessCSV, hopen, NewReader, Reader.Read, checkFieldCount, RawRecord.err,
          hcreate, cellAt_nil] at hout
      | none =>
        cases hwrite : fs.writeErr 0 with
        | some err =>
          simp [ProcessCSV, hopen, NewReader, Reader.Read, checkFieldCount, RawRecord.err,
            hcreate, hwrite, cellAt_nil] at hout
        | none =>
          obtain ⟨_, hwr, ht, _⟩ := processCSV_of_header backend fs inputPath t w first more
            rows hopen hcreate hwrite
          rw [hwr, cellAt_cons_succ] at hout
          rw [ht]
          exact rowLoop_answer_cached backend fs.writeErr (first :: more) x hx hgood rows _ 1
            t w k i h o hcell hheader hcol hout

/-- C1, refuted as stated: on the input `city`, `Paris`, `Paris` with nothing
excluded and a service that fails on its first request, the two identical cells
cause two requests for "Paris" and are written differently. -/
theorem failed_translation_is_retried :
    cellAt (twoParis.map RawRecord.dst) 1 0 = some "Paris" ∧
    cellAt (twoParis.map RawRecord.dst) 2 0 = some "Paris" ∧
    (ProcessCSV flakyBackend (fileWith twoParis) "in.csv" ⟨[], []⟩ ⟨[], []⟩).w.requests
      = ["Paris", "Paris"] ∧
    (ProcessCSV flakyBackend (fileWith twoParis) "in.csv" ⟨[], []⟩ ⟨[], []⟩).written
      = [["city"], ["Paris"], ["PARIS"]] := by
  decide

/-- C1, amended: in every run of `ProcessCSV` with a service that answers the
non-empty text `x` with at least one translation whenever it is asked, at most
one request for `x` is made during the run, and any two data cells with text `x`
in non-excluded columns that are written are written with the same output. -/
theorem processCSV_translates_text_once (backend : Backend) (fs : FileSystem)
    (inputPath : String) (t : Translator) (w : World) (x : String) (hx : x ≠ "")
    (hgood : ∀ history, ∃ tr rest, backend history x = .ok (tr :: rest)) :
    (ProcessCSV backend fs inputPath t w).w.requests.count x ≤ w.requests.count x + 1 ∧
    ∀ input, fs.openInput inputPath = .ok input →
      ∀ k₁ i₁ k₂ i₂ h₁ h₂ o₁ o₂,
        cellAt (input.map RawRecord.dst) (k₁ + 1) i₁ = some x →
        cellAt (input.map RawRecord.dst) (k₂ + 1) i₂ = some x →
        cellAt (input.map RawRecord.dst) 0 i₁ = some h₁ →
        cellAt (input.map RawRecord.dst) 0 i₂ = some h₂ →
        h₁ ∉ t.excludeCols → h₂ ∉ t.excludeCols →
        cellAt (ProcessCSV backend fs inputPath t w).written (k₁ + 1) i₁ = some o₁ →
        cellAt (ProcessCSV backend fs inputPath t w).written (k₂ + 1) i₂ = some o₂ →
        o₁ = o₂ := by
  constructor
  · exact (processCSV_preserves
      (fun t1 w1 => w1.requests.count x ≤ w.requests.count x + 1 ∧
        (w.requests.count x < w1.requests.count x → ∃ v, t1.cache.get x = some v))
      backend fs inputPath
      (fun t1 w1 text header h1 =>
        translateCell_request_count backend x (w.requests.count x) hgood t1 w1 text header h1)
      t w ⟨Nat.le_succ _, fun hlt => absurd hlt (Nat.lt_irrefl _)⟩).1
  · intro input hopen k₁ i₁ k₂ i₂ h₁ h₂ o₁ o₂ hc₁ hc₂ hh₁ hh₂ he₁ he₂ ho₁ ho₂
    have e₁ := processCSV_answer_cached backend fs inputPath t w x hx hgood input hopen
      k₁ i₁ h₁ o₁ hc₁ hh₁ he₁ ho₁
    have e₂ := processCSV_answer_cached backend fs inputPath t w x hx hgood input hopen
      k₂ i₂ h₂ o₂ hc₂ hh₂ he₂ ho₂
    rw [e₁] at e₂
    exact Option.some.inj e₂

theorem processCSV_translates_text_once_witness :
    ("Paris" : String) ≠ "" ∧
    (ProcessCSV upperBackend (fileWith parisInput) "in.csv" ⟨[], ["id"]⟩
      ⟨[], []⟩).w.requests.count "Paris" ≤ 1 :=
  ⟨by decide, (processCSV_translates_text_once upperBackend (fileWith parisInput) "in.csv"
    ⟨[], ["id"]⟩ ⟨[], []⟩ "Paris" (by decide) (fun _ => ⟨_, _, rfl⟩)).1⟩

/-- The round trip of the specification: `id,city / 1,Paris / 2,Paris / 3,` with
`id` excluded and an upper-casing service gives `1,PARIS / 2,PARIS / 3,` after
exactly one request, for "Paris". -/
theorem paris_round_trip :
    (ProcessCSV upperBackend (fileWith parisInput) "in.csv" ⟨[], ["id"]⟩ ⟨[], []⟩).written
      = [["id", "city"], ["1", "PARIS"], ["2", "PARIS"], ["3", ""]] ∧
    (ProcessCSV upperBackend (fileWith parisInput) "in.csv" ⟨[], ["id"]⟩ ⟨[], []⟩).w.requests
      = ["Paris"] ∧
    (ProcessCSV upperBackend (fileWith parisInput) "in.csv" ⟨[], ["id"]⟩ ⟨[], []⟩).outPath
      = some "in_translated.csv" := by
  decide

end CsvTranslator
